import Mathlib

/-!
Verification of the cashbook ledger core (src/services/storage.ts).

The pure computational core consists of:
* the running-balance computation inside `getTransactionsWithBalance`
  (storage.ts lines 483-499): sort ascending by the timestamp parsed from
  `date + 'T' + time`, walk the list accumulating a signed running total,
  then reverse;
* the totals folds in `getBookTotals` (lines 381-398), `getBooks`
  (lines 342-347) and `getBusinesses` (lines 133-182): add `amount` to
  `totalIn` when `type === 'IN'`, otherwise to `totalOut`, and
  `balance = totalIn - totalOut`;
* the business-level aggregation in `getBusinesses` (lines 133-182):
  elementwise sums of the per-ledger totals plus `bookCount`;
* the join-code generation in `createBusiness` (line 206):
  `Math.floor(100000 + Math.random() * 900000)`.

JavaScript numbers are embedded as `ℚ` (the numeric claims are algebraic,
not about float rounding), strings as `String`, epoch-millisecond
timestamps as `ℤ`.
-/

/-- Embedding of the `Transaction` interface (src/types.ts): `amount` is a
JS number (embedded as `ℚ`), `type` the string value of the
`TransactionType` enum (`"IN"` or `"OUT"`, though the totals folds accept
any string), `date` a `YYYY-MM-DD` string, `time` an `HH:mm` string. -/
structure Transaction where
  id : String
  bookId : String
  amount : ℚ
  type : String
  date : String
  time : String
  note : String
  partyName : Option String
  category : Option String
  attachmentUrl : Option String
  createdAt : ℤ
deriving DecidableEq, Repr

/-- Embedding of `TransactionWithBalance extends Transaction` (src/types.ts):
the spread `{ ...tx, runningBalance: running }` in storage.ts line 496
copies every `Transaction` field and adds `runningBalance`. -/
structure TransactionWithBalance extends Transaction where
  runningBalance : ℚ
deriving DecidableEq, Repr

/-- A row of the `entries` table as selected by the totals queries
(`entries (amount, type)` in `getBooks`, `getBookTotals`, `getBusinesses`). -/
structure Entry where
  amount : ℚ
  type : String
deriving DecidableEq, Repr

/-- The `(amount, type)` projection of a transaction: `getBookTotals` and
`getTransactionsWithBalance` read the same underlying `entries` rows. -/
def Transaction.toEntry (t : Transaction) : Entry :=
  { amount := t.amount, type := t.type }

/-- The derived totals attached to a book (`BookWithTotals` minus the
identity fields, src/types.ts). -/
structure BookTotals where
  totalIn : ℚ
  totalOut : ℚ
  balance : ℚ
deriving DecidableEq, Repr

/-- The derived totals attached to a business (`BusinessWithTotals` minus
the identity fields, src/types.ts). -/
structure BusinessTotals where
  totalIn : ℚ
  totalOut : ℚ
  balance : ℚ
  bookCount : ℕ
deriving DecidableEq, Repr

/-- The accumulation loop shared by `getBookTotals` (storage.ts 383-388),
`getBooks` (342-347) and `getBusinesses` (144-149):
`if (t.type === 'IN') totalIn += Number(t.amount); else totalOut += Number(t.amount);`
run over the entries with both accumulators starting at 0. -/
def entriesTotals (entries : List Entry) : ℚ × ℚ :=
  entries.foldl
    (fun acc t => if t.type = "IN" then (acc.1 + t.amount, acc.2) else (acc.1, acc.2 + t.amount))
    (0, 0)

/-- Pure core of `getBookTotals` (storage.ts 372-399): fold the entries and
return `{ totalIn, totalOut, balance: totalIn - totalOut }`.  The spec
names this computation `aggregateBook`. -/
def getBookTotals (entries : List Entry) : BookTotals :=
  let p := entriesTotals entries
  { totalIn := p.1, totalOut := p.2, balance := p.1 - p.2 }

/-- A ledger row with its entries, as selected by `getBusinesses`
(`ledgers ( ..., entries (amount, type) )`).  A null `entries` field is
embedded as the empty list (both produce zero totals). -/
structure Ledger where
  entries : List Entry
deriving DecidableEq, Repr

/-- Pure core of the per-business aggregation in `getBusinesses`
(storage.ts 133-182): for each ledger fold its entries into `bIn`/`bOut`,
accumulate `totalIn += bIn; totalOut += bOut`, set
`bookCount = b.ledgers.length` and `balance = totalIn - totalOut`.  A null
`ledgers` field is embedded as the empty list (both give all-zero totals
and `bookCount = 0`).  The spec names this computation `aggregateBusiness`. -/
def getBusinessTotals (ledgers : List Ledger) : BusinessTotals :=
  let acc := ledgers.foldl
    (fun acc b =>
      let p := entriesTotals b.entries
      (acc.1 + p.1, acc.2 + p.2))
    (0, 0)
  { totalIn := acc.1, totalOut := acc.2, balance := acc.1 - acc.2, bookCount := ledgers.length }

/-- Digit test used by the date/time parser: `'0' ≤ c ≤ '9'`, phrased on
`Char.toNat` (48 is `'0'`, 57 is `'9'`). -/
def isDigitChar (c : Char) : Bool :=
  48 ≤ c.toNat && c.toNat ≤ 57

/-- Numeric value of a digit character. -/
def digitVal (c : Char) : ℕ :=
  c.toNat - 48

/-- Parse a `YYYY-MM-DD` string into `(year, month, day)`.  Models the
date part of JavaScript `new Date(date + 'T' + time)` ISO parsing: any
other shape is rejected (`none`, the `NaN` case). -/
def parseDate (s : String) : Option (ℕ × ℕ × ℕ) :=
  match s.data with
  | [y1, y2, y3, y4, c1, m1, m2, c2, d1, d2] =>
    if isDigitChar y1 && isDigitChar y2 && isDigitChar y3 && isDigitChar y4
        && (c1 == '-') && isDigitChar m1 && isDigitChar m2
        && (c2 == '-') && isDigitChar d1 && isDigitChar d2 then
      some (1000 * digitVal y1 + 100 * digitVal y2 + 10 * digitVal y3 + digitVal y4,
            10 * digitVal m1 + digitVal m2,
            10 * digitVal d1 + digitVal d2)
    else none
  | _ => none

/-- Parse an `HH:mm` string into `(hour, minute)`; any other shape is
rejected. -/
def parseTime (s : String) : Option (ℕ × ℕ) :=
  match s.data with
  | [h1, h2, c, m1, m2] =>
    if isDigitChar h1 && isDigitChar h2 && (c == ':') && isDigitChar m1 && isDigitChar m2 then
      some (10 * digitVal h1 + digitVal h2, 10 * digitVal m1 + digitVal m2)
    else none
  | _ => none

/-- Gregorian leap-year test. -/
def isLeapYear (y : ℕ) : Bool :=
  (y % 4 == 0 && y % 100 != 0) || y % 400 == 0

/-- Number of leap years strictly before year `y` (counting from year 0,
which is a leap year). -/
def leapsBefore (y : ℕ) : ℕ :=
  (y + 3) / 4 - (y + 99) / 100 + (y + 399) / 400

/-- Days in the given month (1-12) of a leap/non-leap year; 0 for an
out-of-range month. -/
def daysInMonth (leap : Bool) (m : ℕ) : ℕ :=
  match m with
  | 1 => 31
  | 2 => if leap then 29 else 28
  | 3 => 31
  | 4 => 30
  | 5 => 31
  | 6 => 30
  | 7 => 31
  | 8 => 31
  | 9 => 30
  | 10 => 31
  | 11 => 30
  | 12 => 31
  | _ => 0

/-- Days elapsed in the year before the first day of month `m` (1-12). -/
def monthOffset (leap : Bool) (m : ℕ) : ℕ :=
  match m with
  | 1 => 0
  | 2 => 31
  | 3 => if leap then 60 else 59
  | 4 => if leap then 91 else 90
  | 5 => if leap then 121 else 120
  | 6 => if leap then 152 else 151
  | 7 => if leap then 182 else 181
  | 8 => if leap then 213 else 212
  | 9 => if leap then 244 else 243
  | 10 => if leap then 274 else 273
  | 11 => if leap then 305 else 304
  | 12 => if leap then 335 else 334
  | _ => 0

/-- Day count of the civil date `(y, m, d)` measured from 0000-01-01 in
the proleptic Gregorian calendar. -/
def daysFromYear0 (y m d : ℕ) : ℕ :=
  365 * y + leapsBefore y + monthOffset (isLeapYear y) m + (d - 1)

/-- Validity of parsed date/time components: exactly the dates and times
JavaScript ISO parsing accepts (month 1-12, day within the month, hour at
most 23, minute at most 59). -/
def validDateTime (y m d h mi : ℕ) : Bool :=
  1 ≤ m && m ≤ 12 && 1 ≤ d && d ≤ daysInMonth (isLeapYear y) m && h ≤ 23 && mi ≤ 59

/-- Epoch milliseconds of `(y, m, d, h, mi)`: 719528 is the day number of
1970-01-01 from 0000-01-01.  Models `Date.getTime()` at a fixed UTC
offset (a constant offset preserves order and equality of timestamps). -/
def epochMs (y m d h mi : ℕ) : ℤ :=
  ((daysFromYear0 y m d : ℤ) - 719528) * 86400000 + h * 3600000 + mi * 60000

/-- Timestamp of a transaction: `new Date(a.date + 'T' + a.time).getTime()`
(storage.ts 484-485).  A malformed date or time gives `NaN` in the source,
which makes the comparator-based sort order unspecified; it is embedded as
0 here, and every ordering claim assumes well-formed fields. -/
def txTimeMs (t : Transaction) : ℤ :=
  match parseDate t.date, parseTime t.time with
  | some (y, m, d), some (h, mi) =>
    if validDateTime y m d h mi then epochMs y m d h mi else 0
  | _, _ => 0

/-- The sort comparator of storage.ts 483-487 (`dateA - dateB`, ascending
by timestamp), as the boolean `le` used by the stable sort. -/
def txSortLe (a b : Transaction) : Bool :=
  txTimeMs a ≤ txTimeMs b

/-- The accumulation pass of storage.ts 489-497: walk the ascending list
keeping `running`, add `amount` when `tx.type === TransactionType.IN`
(the string `"IN"`), subtract otherwise, and attach the post-update value
as `runningBalance` via the spread `{ ...tx, runningBalance: running }`. -/
def annotateBalances (running : ℚ) : List Transaction → List TransactionWithBalance
  | [] => []
  | tx :: rest =>
    let r := if tx.type = "IN" then running + tx.amount else running - tx.amount
    { toTransaction := tx, runningBalance := r } :: annotateBalances r rest

/-- Pure core of `getTransactionsWithBalance` (storage.ts 483-499), named
`computeRunningBalances` by the spec: stable-sort the transactions
ascending by parsed `date`+`time` timestamp ([...txs].sort is stable, and
sorting operates on the copy `[...txs]`), accumulate running balances from
0, and reverse so the most recent entry comes first. -/
def computeRunningBalances (txs : List Transaction) : List TransactionWithBalance :=
  (annotateBalances 0 (txs.mergeSort txSortLe)).reverse

/-- The signed contribution of one transaction to the running balance. -/
def signedAmount (t : Transaction) : ℚ :=
  if t.type = "IN" then t.amount else -t.amount

/-- Join-code generation in `createBusiness` (storage.ts 206):
`Math.floor(100000 + Math.random() * 900000)`, with the random draw
`r ∈ [0, 1)` made explicit. -/
def joinCodeNum (r : ℚ) : ℤ :=
  ⌊(100000 : ℚ) + r * 900000⌋

/-- Numeric value `YYYYMMDD` of a parsed date string, used to state
ordering of date fields; 0 for an unparsable date. -/
def dateVal (s : String) : ℕ :=
  match parseDate s with
  | some (y, m, d) => y * 10000 + m * 100 + d
  | none => 0

/-- Numeric value (minutes since midnight) of a parsed time string, used
to state ordering of time fields; 0 for an unparsable time. -/
def timeVal (s : String) : ℕ :=
  match parseTime s with
  | some (h, mi) => h * 60 + mi
  | none => 0

/-- A transaction has a well-formed `YYYY-MM-DD` date and a well-formed
`HH:mm` time, in the ranges JavaScript ISO date parsing accepts. -/
def wellFormedTx (t : Transaction) : Bool :=
  match parseDate t.date, parseTime t.time with
  | some (y, m, d), some (h, mi) => validDateTime y m d h mi
  | _, _ => false

/-- Sample transaction (spec §8 scenario 1): IN 100 at 2024-01-01 09:00. -/
def sampleTx1 : Transaction :=
  { id := "t1", bookId := "b1", amount := 100, type := "IN", date := "2024-01-01",
    time := "09:00", note := "", partyName := none, category := none,
    attachmentUrl := none, createdAt := 0 }

/-- Sample transaction (spec §8 scenario 1): OUT 40 at 2024-01-01 10:00. -/
def sampleTx2 : Transaction :=
  { id := "t2", bookId := "b1", amount := 40, type := "OUT", date := "2024-01-01",
    time := "10:00", note := "", partyName := none, category := none,
    attachmentUrl := none, createdAt := 0 }

/-- Sample transaction (spec §8 scenario 1): IN 10 at 2024-01-02 08:00. -/
def sampleTx3 : Transaction :=
  { id := "t3", bookId := "b1", amount := 10, type := "IN", date := "2024-01-02",
    time := "08:00", note := "", partyName := none, category := none,
    attachmentUrl := none, createdAt := 0 }

/-- Malformed transaction of spec §8 scenario 5: OUT direction with a
negative amount. -/
def outNegTx : Transaction :=
  { id := "t4", bookId := "b1", amount := -5, type := "OUT", date := "2024-01-01",
    time := "09:00", note := "", partyName := none, category := none,
    attachmentUrl := none, createdAt := 0 }

/-! ## Lemmas about the totals folds -/

/-- Unfolding of the shared totals loop: starting from any accumulator
pair, the fold adds the sum of the `"IN"` amounts to the first component
and the sum of all other amounts to the second. -/
theorem entriesTotals_foldl (es : List Entry) (a b : ℚ) :
    es.foldl
      (fun acc t => if t.type = "IN" then (acc.1 + t.amount, acc.2) else (acc.1, acc.2 + t.amount))
      (a, b)
    = (a + ((es.filter (fun t => t.type == "IN")).map Entry.amount).sum,
       b + ((es.filter (fun t => !(t.type == "IN"))).map Entry.amount).sum) := by
  induction es generalizing a b with
  | nil => simp
  | cons e es ih =>
    by_cases h : e.type = "IN" <;> simp [h, ih] <;> ring

/-- The totals pair of a book: `"IN"`-filtered sum and complement sum. -/
theorem entriesTotals_eq (es : List Entry) :
    entriesTotals es
    = (((es.filter (fun t => t.type == "IN")).map Entry.amount).sum,
       ((es.filter (fun t => !(t.type == "IN"))).map Entry.amount).sum) := by
  unfold entriesTotals
  rw [entriesTotals_foldl]
  simp

/-- `totalIn` is the sum of the amounts whose type is exactly `"IN"`. -/
theorem getBookTotals_totalIn (es : List Entry) :
    (getBookTotals es).totalIn = ((es.filter (fun t => t.type == "IN")).map Entry.amount).sum := by
  simp [getBookTotals, entriesTotals_eq]

/-- `totalOut` is the sum of the amounts of every entry whose type is not
`"IN"` (including unknown type strings). -/
theorem getBookTotals_totalOut (es : List Entry) :
    (getBookTotals es).totalOut = ((es.filter (fun t => !(t.type == "IN"))).map Entry.amount).sum := by
  simp [getBookTotals, entriesTotals_eq]

/-- `balance` is definitionally `totalIn - totalOut`. -/
theorem getBookTotals_balance (es : List Entry) :
    (getBookTotals es).balance = (getBookTotals es).totalIn - (getBookTotals es).totalOut := rfl

/-- Splitting a sum over the `"IN"` filter and its complement loses no
entry. -/
theorem sum_filter_in_add_out (es : List Entry) :
    ((es.filter (fun t => t.type == "IN")).map Entry.amount).sum
      + ((es.filter (fun t => !(t.type == "IN"))).map Entry.amount).sum
    = (es.map Entry.amount).sum := by
  induction es with
  | nil => simp
  | cons e es ih =>
    by_cases h : e.type = "IN" <;> simp [h] <;> linarith

/-- Unfolding of the business-level loop over ledgers. -/
theorem businessTotals_foldl (ls : List Ledger) (a b : ℚ) :
    ls.foldl
      (fun acc l =>
        let p := entriesTotals l.entries
        (acc.1 + p.1, acc.2 + p.2))
      (a, b)
    = (a + (ls.map (fun l => (getBookTotals l.entries).totalIn)).sum,
       b + (ls.map (fun l => (getBookTotals l.entries).totalOut)).sum) := by
  induction ls generalizing a b with
  | nil => simp
  | cons l ls ih => simp [ih, getBookTotals] ; constructor <;> ring

/-- Business `totalIn` is the sum of the per-book `totalIn` values. -/
theorem getBusinessTotals_totalIn (ls : List Ledger) :
    (getBusinessTotals ls).totalIn = (ls.map (fun l => (getBookTotals l.entries).totalIn)).sum := by
  unfold getBusinessTotals
  rw [businessTotals_foldl]
  simp

/-- Business `totalOut` is the sum of the per-book `totalOut` values. -/
theorem getBusinessTotals_totalOut (ls : List Ledger) :
    (getBusinessTotals ls).totalOut = (ls.map (fun l => (getBookTotals l.entries).totalOut)).sum := by
  unfold getBusinessTotals
  rw [businessTotals_foldl]
  simp

/-- Business `balance` is definitionally `totalIn - totalOut`, and
`bookCount` the number of ledgers. -/
theorem getBusinessTotals_balance (ls : List Ledger) :
    (getBusinessTotals ls).balance = (getBusinessTotals ls).totalIn - (getBusinessTotals ls).totalOut := rfl

/-! ## Lemmas about the running-balance pass -/

/-- Erasing the annotation recovers the (sorted) input: the spread
`{ ...tx, runningBalance: running }` copies every field. -/
theorem annotateBalances_map_toTransaction (r : ℚ) (l : List Transaction) :
    (annotateBalances r l).map TransactionWithBalance.toTransaction = l := by
  induction l generalizing r with
  | nil => rfl
  | cons t ts ih => simp [annotateBalances, ih]

/-- The output of the annotation pass has the same length as its input. -/
theorem annotateBalances_length (r : ℚ) (l : List Transaction) :
    (annotateBalances r l).length = l.length := by
  induction l generalizing r with
  | nil => rfl
  | cons t ts ih => simp [annotateBalances, ih]

/-- The last annotated value is the initial accumulator plus the signed
sum of the whole list. -/
theorem annotateBalances_getLast (r : ℚ) (l : List Transaction) (h : l ≠ []) :
    ∃ x, (annotateBalances r l).getLast? = some x
      ∧ x.runningBalance = r + (l.map signedAmount).sum := by
  induction l generalizing r with
  | nil => exact absurd rfl h
  | cons t ts ih =>
    cases ts with
    | nil =>
      refine ⟨_, rfl, ?_⟩
      simp [annotateBalances, signedAmount]
      by_cases hty : t.type = "IN" <;> simp [hty] <;> ring
    | cons t' ts' =>
      obtain ⟨x, hx, hval⟩ := ih (if t.type = "IN" then r + t.amount else r - t.amount) (by simp)
      refine ⟨x, ?_, ?_⟩
      · rw [annotateBalances]
        simp only [annotateBalances] at hx ⊢
        rw [List.getLast?_cons_cons]
        exact hx
      · rw [hval]
        simp [signedAmount]
        by_cases hty : t.type = "IN" <;> simp [hty] <;> ring

/-- The signed sum of a transaction list equals `totalIn - totalOut` of
the corresponding entry rows. -/
theorem signedSum_eq_balance (txs : List Transaction) :
    ((txs.map signedAmount).sum)
    = (getBookTotals (txs.map Transaction.toEntry)).totalIn
      - (getBookTotals (txs.map Transaction.toEntry)).totalOut := by
  induction txs with
  | nil => simp [getBookTotals, entriesTotals]
  | cons t ts ih =>
    rw [getBookTotals_totalIn, getBookTotals_totalOut] at ih ⊢
    by_cases h : t.type = "IN" <;>
      simp [signedAmount, h, Transaction.toEntry, ih] <;> ring

/-- The output of `computeRunningBalances`, stripped of its annotation,
is a permutation of the input. -/
theorem computeRunningBalances_perm (txs : List Transaction) :
    ((computeRunningBalances txs).map TransactionWithBalance.toTransaction).Perm txs := by
  unfold computeRunningBalances
  rw [List.map_reverse, annotateBalances_map_toTransaction]
  exact (List.reverse_perm _).trans (List.mergeSort_perm txs _)

/-- Per-book conservation: `totalIn + totalOut` is the sum of all amounts. -/
theorem bookTotals_in_add_out (es : List Entry) :
    (getBookTotals es).totalIn + (getBookTotals es).totalOut = (es.map Entry.amount).sum := by
  rw [getBookTotals_totalIn, getBookTotals_totalOut]
  exact sum_filter_in_add_out es

/-- Business-level conservation: `totalIn + totalOut` is the sum of every
amount of every ledger. -/
theorem businessTotals_in_add_out (ls : List Ledger) :
    (getBusinessTotals ls).totalIn + (getBusinessTotals ls).totalOut
    = (ls.map (fun l => (l.entries.map Entry.amount).sum)).sum := by
  rw [getBusinessTotals_totalIn, getBusinessTotals_totalOut]
  induction ls with
  | nil => simp
  | cons l ls ih =>
    simp only [List.map_cons, List.sum_cons]
    have hb := bookTotals_in_add_out l.entries
    linarith

/-! ## Claim theorems (first batch) -/

/-- C1: for every non-empty transaction list, the `runningBalance` of the
first element of the output of `computeRunningBalances` (the most recent
entry) equals the `balance` (`totalIn - totalOut`) computed by
`getBookTotals` over the same rows. -/
theorem c1_head_runningBalance_eq_balance (txs : List Transaction) (h : txs ≠ []) :
    ∃ x, (computeRunningBalances txs).head? = some x
      ∧ x.runningBalance = (getBookTotals (txs.map Transaction.toEntry)).balance := by
  have hs : txs.mergeSort txSortLe ≠ [] := by
    intro hnil
    have hp := List.mergeSort_perm txs txSortLe
    rw [hnil] at hp
    exact h hp.symm.eq_nil
  obtain ⟨x, hx, hval⟩ := annotateBalances_getLast 0 _ hs
  refine ⟨x, ?_, ?_⟩
  · rw [computeRunningBalances, List.head?_reverse]
    exact hx
  · rw [hval, getBookTotals_balance, ← signedSum_eq_balance]
    have hperm : ((txs.mergeSort txSortLe).map signedAmount).Perm (txs.map signedAmount) :=
      (List.mergeSort_perm txs txSortLe).map _
    rw [hperm.sum_eq]
    ring

/-- Witness for C1 at the concrete one-element input `[sampleTx1]`. -/
theorem c1_witness :
    ([sampleTx1] ≠ []) ∧
    ∃ x, (computeRunningBalances [sampleTx1]).head? = some x
      ∧ x.runningBalance = (getBookTotals ([sampleTx1].map Transaction.toEntry)).balance :=
  ⟨by simp, c1_head_runningBalance_eq_balance [sampleTx1] (by simp)⟩

/-- C3: the output of `computeRunningBalances`, forgetting the
`runningBalance` annotation, is a permutation of the input: no entry is
dropped, duplicated, or invented. -/
theorem c3_output_perm_input (txs : List Transaction) :
    ((computeRunningBalances txs).map TransactionWithBalance.toTransaction).Perm txs :=
  computeRunningBalances_perm txs

/-- Counterexample to C4 as stated (no precondition on amounts): a single
entry of type `"IN"` with amount `-5` makes `totalIn` negative. -/
theorem c4_counterexample :
    ¬ (0 ≤ (getBookTotals [{ amount := -5, type := "IN" }]).totalIn) := by
  norm_num [getBookTotals, entriesTotals]

/-- C4 (amended): over entry lists whose amounts are all non-negative —
the data-model invariant — `totalIn` and `totalOut` are each `≥ 0`. -/
theorem c4_amended_totals_nonneg (es : List Entry) (h : ∀ e ∈ es, 0 ≤ e.amount) :
    0 ≤ (getBookTotals es).totalIn ∧ 0 ≤ (getBookTotals es).totalOut := by
  rw [getBookTotals_totalIn, getBookTotals_totalOut]
  refine ⟨List.sum_nonneg ?_, List.sum_nonneg ?_⟩ <;>
  · intro x hx
    obtain ⟨e, he, rfl⟩ := List.mem_map.mp hx
    exact h e (List.mem_filter.mp he).1

/-- Witness for the amended C4 at a concrete two-entry book. -/
theorem c4_witness :
    (∀ e ∈ ([⟨3, "IN"⟩, ⟨4, "OUT"⟩] : List Entry), 0 ≤ e.amount)
    ∧ (0 ≤ (getBookTotals ([⟨3, "IN"⟩, ⟨4, "OUT"⟩] : List Entry)).totalIn
       ∧ 0 ≤ (getBookTotals ([⟨3, "IN"⟩, ⟨4, "OUT"⟩] : List Entry)).totalOut) := by
  have h : ∀ e ∈ ([⟨3, "IN"⟩, ⟨4, "OUT"⟩] : List Entry), 0 ≤ e.amount := by
    intro e he
    simp only [List.mem_cons, List.not_mem_nil, or_false] at he
    rcases he with rfl | rfl <;> norm_num
  exact ⟨h, c4_amended_totals_nonneg _ h⟩

/-- Counterexample to C5 as stated: the OUT-typed transaction with amount
`-5` is not rejected and not skipped — it is the single element of the
output with `runningBalance = 0 - (-5) = 5`, and its amount flows into
`totalOut`, which becomes `-5`. -/
theorem c5_counterexample :
    (computeRunningBalances [outNegTx]).map TransactionWithBalance.runningBalance = [5]
    ∧ (getBookTotals [outNegTx.toEntry]).totalOut = -5 := by
  constructor
  · simp [computeRunningBalances, annotateBalances, outNegTx]
  · simp [getBookTotals, entriesTotals, Transaction.toEntry, outNegTx]

/-- C5 (amended): the core performs no `MalformedInput` validation: a
transaction of non-`"IN"` type with a negative amount is still included in
the running-balance output, and no entry is excluded from the totals
(`totalIn + totalOut` sums every amount, malformed or not). -/
theorem c5_amended_included (l : List Transaction) (t : Transaction) (ht : t ∈ l)
    (hty : t.type ≠ "IN") (hneg : t.amount < 0) :
    (∃ x ∈ computeRunningBalances l, x.toTransaction = t)
    ∧ (getBookTotals (l.map Transaction.toEntry)).totalIn
        + (getBookTotals (l.map Transaction.toEntry)).totalOut
      = ((l.map Transaction.toEntry).map Entry.amount).sum := by
  constructor
  · have hperm := computeRunningBalances_perm l
    have hmem : t ∈ (computeRunningBalances l).map TransactionWithBalance.toTransaction :=
      hperm.symm.subset ht
    obtain ⟨x, hxmem, hxeq⟩ := List.mem_map.mp hmem
    exact ⟨x, hxmem, hxeq⟩
  · exact bookTotals_in_add_out _

/-- Witness for the amended C5 at the concrete input `[outNegTx]`. -/
theorem c5_witness :
    (outNegTx ∈ [outNegTx] ∧ outNegTx.type ≠ "IN" ∧ outNegTx.amount < 0)
    ∧ ((∃ x ∈ computeRunningBalances [outNegTx], x.toTransaction = outNegTx)
      ∧ (getBookTotals ([outNegTx].map Transaction.toEntry)).totalIn
          + (getBookTotals ([outNegTx].map Transaction.toEntry)).totalOut
        = (([outNegTx].map Transaction.toEntry).map Entry.amount).sum) :=
  ⟨⟨by simp, by decide, by norm_num [outNegTx]⟩,
   c5_amended_included [outNegTx] outNegTx (by simp) (by decide) (by norm_num [outNegTx])⟩

/-- C6: the business aggregation is the elementwise sum of the per-book
aggregations: `totalIn` and `totalOut` are the sums of the books' values,
`balance = totalIn - totalOut`, and `bookCount` is the number of books. -/
theorem c6_business_linear (ls : List Ledger) :
    (getBusinessTotals ls).totalIn = (ls.map (fun l => (getBookTotals l.entries).totalIn)).sum
    ∧ (getBusinessTotals ls).totalOut = (ls.map (fun l => (getBookTotals l.entries).totalOut)).sum
    ∧ (getBusinessTotals ls).balance
      = (getBusinessTotals ls).totalIn - (getBusinessTotals ls).totalOut
    ∧ (getBusinessTotals ls).bookCount = ls.length :=
  ⟨getBusinessTotals_totalIn ls, getBusinessTotals_totalOut ls, rfl, rfl⟩

/-- C7: empty input is a defined zero-result case: running balances of no
transactions are the empty sequence, and aggregating zero books gives all
totals 0 and `bookCount` 0. -/
theorem c7_empty_input :
    computeRunningBalances [] = []
    ∧ getBusinessTotals [] = { totalIn := 0, totalOut := 0, balance := 0, bookCount := 0 } := by
  constructor
  · simp [computeRunningBalances, annotateBalances]
  · norm_num [getBusinessTotals]

/-- C9: in the totals folds, an amount is added to `totalIn` exactly when
the type string equals `"IN"` and to `totalOut` for every other type
value, so no entry is skipped: `totalIn + totalOut` equals the sum of all
amounts, at book level and at business level. -/
theorem c9_in_iff_type_in (es : List Entry) (ls : List Ledger) :
    (getBookTotals es).totalIn = ((es.filter (fun t => t.type == "IN")).map Entry.amount).sum
    ∧ (getBookTotals es).totalOut
      = ((es.filter (fun t => !(t.type == "IN"))).map Entry.amount).sum
    ∧ (getBookTotals es).totalIn + (getBookTotals es).totalOut = (es.map Entry.amount).sum
    ∧ (getBusinessTotals ls).totalIn + (getBusinessTotals ls).totalOut
      = (ls.map (fun l => (l.entries.map Entry.amount).sum)).sum :=
  ⟨getBookTotals_totalIn es, getBookTotals_totalOut es,
   bookTotals_in_add_out es, businessTotals_in_add_out ls⟩

/-- C10: `computeRunningBalances` only annotates, never edits: the output
(with annotation forgotten) is a permutation of the input, and every
output element agrees with an input transaction on every field, with
`runningBalance` the only added field.  (The input list itself is never
modified: the embedding of the sort acts on the copy `[...txs]` and the
whole computation is pure.) -/
theorem c10_annotation_only (txs : List Transaction) :
    ((computeRunningBalances txs).map TransactionWithBalance.toTransaction).Perm txs
    ∧ ∀ x ∈ computeRunningBalances txs, ∃ t ∈ txs,
        x.id = t.id ∧ x.bookId = t.bookId ∧ x.amount = t.amount ∧ x.type = t.type
        ∧ x.date = t.date ∧ x.time = t.time ∧ x.note = t.note ∧ x.partyName = t.partyName
        ∧ x.category = t.category ∧ x.attachmentUrl = t.attachmentUrl
        ∧ x.createdAt = t.createdAt := by
  refine ⟨computeRunningBalances_perm txs, ?_⟩
  intro x hx
  have hmem : x.toTransaction ∈ (computeRunningBalances txs).map TransactionWithBalance.toTransaction :=
    List.mem_map_of_mem _ hx
  exact ⟨x.toTransaction, (computeRunningBalances_perm txs).subset hmem,
    rfl, rfl, rfl, rfl, rfl, rfl, rfl, rfl, rfl, rfl, rfl⟩

/-- C8: for every outcome `r ∈ [0, 1)` of the random draw, the generated
join code `Math.floor(100000 + r * 900000)` is an integer in
`[100000, 999999]`, whose decimal representation therefore has exactly 6
digits. -/
theorem c8_joinCode_six_digits (r : ℚ) (h0 : 0 ≤ r) (h1 : r < 1) :
    100000 ≤ joinCodeNum r ∧ joinCodeNum r ≤ 999999
    ∧ (Nat.digits 10 (joinCodeNum r).toNat).length = 6 := by
  have hlo : (100000 : ℤ) ≤ joinCodeNum r := by
    rw [joinCodeNum, Int.le_floor]
    push_cast
    nlinarith
  have hhi : joinCodeNum r < 1000000 := by
    rw [joinCodeNum, Int.floor_lt]
    push_cast
    nlinarith
  refine ⟨hlo, by omega, ?_⟩
  have hn : (joinCodeNum r).toNat ≠ 0 := by omega
  have h2 : 10 ^ 5 ≤ (joinCodeNum r).toNat := by norm_num ; omega
  have h3 : (joinCodeNum r).toNat < 10 ^ 6 := by norm_num ; omega
  rw [Nat.digits_len 10 _ (by norm_num) hn, Nat.log_eq_of_pow_le_of_lt_pow h2 h3]

/-- Witness for C8 at the concrete draw `r = 1/2`. -/
theorem c8_witness :
    ((0 : ℚ) ≤ 1/2 ∧ (1/2 : ℚ) < 1)
    ∧ (100000 ≤ joinCodeNum (1/2) ∧ joinCodeNum (1/2) ≤ 999999
       ∧ (Nat.digits 10 (joinCodeNum (1/2)).toNat).length = 6) :=
  ⟨⟨by norm_num, by norm_num⟩, c8_joinCode_six_digits (1/2) (by norm_num) (by norm_num)⟩

/-! ## Calendar arithmetic for the sort-order claim -/

/-- Arithmetic characterisation of the leap-year test. -/
theorem isLeapYear_iff (y : ℕ) :
    isLeapYear y = true ↔ ((y % 4 = 0 ∧ y % 100 ≠ 0) ∨ y % 400 = 0) := by
  simp [isLeapYear, Bool.or_eq_true, Bool.and_eq_true, beq_iff_eq, bne_iff_ne]

/-- The leap count gains exactly one at year `y` when `y` is leap. -/
theorem leapsBefore_succ (y : ℕ) :
    leapsBefore (y + 1) = leapsBefore y + (if isLeapYear y then 1 else 0) := by
  by_cases h : isLeapYear y = true
  · rw [if_pos h]
    rw [isLeapYear_iff] at h
    unfold leapsBefore
    omega
  · rw [if_neg h]
    rw [isLeapYear_iff] at h
    unfold leapsBefore
    omega

/-- The leap count is monotone. -/
theorem leapsBefore_mono {a b : ℕ} (h : a ≤ b) : leapsBefore a ≤ leapsBefore b := by
  unfold leapsBefore
  omega

/-- Crossing at least one year boundary gains the leap day of the year
being crossed. -/
theorem leapsBefore_step_le {y1 y2 : ℕ} (h : y1 < y2) :
    leapsBefore y1 + (if isLeapYear y1 then 1 else 0) ≤ leapsBefore y2 := by
  rw [← leapsBefore_succ]
  exact leapsBefore_mono h

/-- No month holds more than 31 days. -/
theorem daysInMonth_le (leap : Bool) (m : ℕ) : daysInMonth leap m ≤ 31 := by
  unfold daysInMonth
  split <;> (try split) <;> decide

/-- A valid day offset within a year is at most 365 (leap) / 364. -/
theorem monthOffset_day_le (leap : Bool) :
    ∀ m < 13, ∀ d < 32, 1 ≤ m → 1 ≤ d → d ≤ daysInMonth leap m →
      monthOffset leap m + (d - 1) ≤ if leap then 365 else 364 := by
  cases leap <;> decide

/-- Every day of an earlier month lies strictly before the start of a
later month: the month offsets advance by at least the month length. -/
theorem monthOffset_lt_of_month_lt (leap : Bool) :
    ∀ m1 < 13, ∀ m2 < 13, 1 ≤ m1 → m1 < m2 →
      monthOffset leap m1 + daysInMonth leap m1 ≤ monthOffset leap m2 := by
  cases leap <;> decide

/-- Strict monotonicity of the civil day count in the lexicographic
`(year, month, day)` order, on valid calendar dates. -/
theorem daysFromYear0_lt (y1 m1 d1 y2 m2 d2 : ℕ)
    (hm1a : 1 ≤ m1) (hm1b : m1 ≤ 12) (hd1a : 1 ≤ d1) (hd1b : d1 ≤ daysInMonth (isLeapYear y1) m1)
    (hm2a : 1 ≤ m2) (hm2b : m2 ≤ 12) (hd2a : 1 ≤ d2) (hd2b : d2 ≤ daysInMonth (isLeapYear y2) m2)
    (hlt : y1 < y2 ∨ (y1 = y2 ∧ (m1 < m2 ∨ (m1 = m2 ∧ d1 < d2)))) :
    daysFromYear0 y1 m1 d1 < daysFromYear0 y2 m2 d2 := by
  have hb1 := daysInMonth_le (isLeapYear y1) m1
  unfold daysFromYear0
  rcases hlt with hy | ⟨rfl, hm | ⟨rfl, hd⟩⟩
  · have h1 := monthOffset_day_le (isLeapYear y1) m1 (by omega) d1 (by omega) hm1a hd1a hd1b
    have h2 := leapsBefore_step_le hy
    cases hL : isLeapYear y1 <;> rw [hL] at h1 h2 <;> simp at h1 h2 <;> omega
  · have h1 := monthOffset_lt_of_month_lt (isLeapYear y1) m1 (by omega) m2 (by omega) hm1a hm
    omega
  · omega

/-- Arithmetic characterisation of component validity. -/
theorem validDateTime_iff (y m d h mi : ℕ) :
    validDateTime y m d h mi = true ↔
      (1 ≤ m ∧ m ≤ 12 ∧ 1 ≤ d ∧ d ≤ daysInMonth (isLeapYear y) m ∧ h ≤ 23 ∧ mi ≤ 59) := by
  simp [validDateTime, Bool.and_eq_true, decide_eq_true_eq, and_assoc]

/-- Strict monotonicity of the timestamp in the lexicographic
`(year, month, day, hour, minute)` order, on valid components. -/
theorem epochMs_lt (y1 m1 d1 h1 mi1 y2 m2 d2 h2 mi2 : ℕ)
    (hv1 : validDateTime y1 m1 d1 h1 mi1 = true)
    (hv2 : validDateTime y2 m2 d2 h2 mi2 = true)
    (hlt : y1 < y2 ∨ (y1 = y2 ∧ (m1 < m2 ∨ (m1 = m2 ∧ (d1 < d2 ∨ (d1 = d2
      ∧ (h1 < h2 ∨ (h1 = h2 ∧ mi1 < mi2)))))))) :
    epochMs y1 m1 d1 h1 mi1 < epochMs y2 m2 d2 h2 mi2 := by
  rw [validDateTime_iff] at hv1 hv2
  obtain ⟨hm1a, hm1b, hd1a, hd1b, hh1, hmi1⟩ := hv1
  obtain ⟨hm2a, hm2b, hd2a, hd2b, hh2, hmi2⟩ := hv2
  unfold epochMs
  rcases hlt with hy | ⟨rfl, hm | ⟨rfl, hd | ⟨rfl, ht⟩⟩⟩
  · have hdays := daysFromYear0_lt y1 m1 d1 y2 m2 d2 hm1a hm1b hd1a hd1b hm2a hm2b hd2a hd2b
      (Or.inl hy)
    omega
  · have hdays := daysFromYear0_lt y1 m1 d1 y1 m2 d2 hm1a hm1b hd1a hd1b hm2a hm2b hd2a hd2b
      (Or.inr ⟨rfl, Or.inl hm⟩)
    omega
  · have hdays := daysFromYear0_lt y1 m1 d1 y1 m1 d2 hm1a hm1b hd1a hd1b hm2a hm2b hd2a hd2b
      (Or.inr ⟨rfl, Or.inr ⟨rfl, hd⟩⟩)
    omega
  · rcases ht with hh | ⟨rfl, hmi⟩ <;> omega

/-- A timestamp comparison on valid components reflects the lexicographic
order on `(year, month, day, hour, minute)`. -/
theorem epochMs_le_lex (y1 m1 d1 h1 mi1 y2 m2 d2 h2 mi2 : ℕ)
    (hv1 : validDateTime y1 m1 d1 h1 mi1 = true)
    (hv2 : validDateTime y2 m2 d2 h2 mi2 = true)
    (hle : epochMs y1 m1 d1 h1 mi1 ≤ epochMs y2 m2 d2 h2 mi2) :
    y1 < y2 ∨ (y1 = y2 ∧ (m1 < m2 ∨ (m1 = m2 ∧ (d1 < d2 ∨ (d1 = d2
      ∧ (h1 < h2 ∨ (h1 = h2 ∧ mi1 ≤ mi2))))))) := by
  by_contra hcon
  have hflip : y2 < y1 ∨ (y2 = y1 ∧ (m2 < m1 ∨ (m2 = m1 ∧ (d2 < d1 ∨ (d2 = d1
      ∧ (h2 < h1 ∨ (h2 = h1 ∧ mi2 < mi1))))))) := by omega
  have hstrict := epochMs_lt y2 m2 d2 h2 mi2 y1 m1 d1 h1 mi1 hv2 hv1 hflip
  omega

/-- Eliminate well-formedness into parsed components and the timestamp
equation. -/
theorem wellFormedTx_elim (t : Transaction) (hw : wellFormedTx t = true) :
    ∃ y m d h mi, parseDate t.date = some (y, m, d) ∧ parseTime t.time = some (h, mi)
      ∧ validDateTime y m d h mi = true ∧ txTimeMs t = epochMs y m d h mi := by
  cases hpd : parseDate t.date with
  | none => simp [wellFormedTx, hpd] at hw
  | some v =>
    cases hpt : parseTime t.time with
    | none => simp [wellFormedTx, hpd, hpt] at hw
    | some w =>
      obtain ⟨y, m, d⟩ := v
      obtain ⟨h, mi⟩ := w
      have hv : validDateTime y m d h mi = true := by
        simpa [wellFormedTx, hpd, hpt] using hw
      exact ⟨y, m, d, h, mi, rfl, rfl, hv, by simp [txTimeMs, hpd, hpt, hv]⟩

/-- Bounds carried by a digit character. -/
theorem isDigitChar_bounds {c : Char} (h : isDigitChar c = true) :
    48 ≤ c.toNat ∧ c.toNat ≤ 57 := by
  simpa [isDigitChar, Bool.and_eq_true, decide_eq_true_eq] using h

/-- Characters with equal code points are equal. -/
theorem char_eq_of_toNat_eq {a b : Char} (h : a.toNat = b.toNat) : a = b :=
  Char.ext (UInt32.ext h)

/-- A successful date parse exposes the 10-character `YYYY-MM-DD` shape of
the string together with the component values. -/
theorem parseDate_elim (s : String) (y m d : ℕ) (h : parseDate s = some (y, m, d)) :
    ∃ a1 a2 a3 a4 b1 b2 c1 c2,
      s.data = [a1, a2, a3, a4, '-', b1, b2, '-', c1, c2]
      ∧ isDigitChar a1 = true ∧ isDigitChar a2 = true ∧ isDigitChar a3 = true
      ∧ isDigitChar a4 = true ∧ isDigitChar b1 = true ∧ isDigitChar b2 = true
      ∧ isDigitChar c1 = true ∧ isDigitChar c2 = true
      ∧ y = 1000 * digitVal a1 + 100 * digitVal a2 + 10 * digitVal a3 + digitVal a4
      ∧ m = 10 * digitVal b1 + digitVal b2
      ∧ d = 10 * digitVal c1 + digitVal c2 := by
  unfold parseDate at h
  split at h
  · rename_i a1 a2 a3 a4 e1 b1 b2 e2 c1 c2 heq
    by_cases hc : (isDigitChar a1 && isDigitChar a2 && isDigitChar a3 && isDigitChar a4
        && (e1 == '-') && isDigitChar b1 && isDigitChar b2
        && (e2 == '-') && isDigitChar c1 && isDigitChar c2) = true
    · rw [if_pos hc] at h
      simp only [Bool.and_eq_true, beq_iff_eq] at hc
      obtain ⟨⟨⟨⟨⟨⟨⟨⟨⟨hda1, hda2⟩, hda3⟩, hda4⟩, he1⟩, hdb1⟩, hdb2⟩, he2⟩, hdc1⟩, hdc2⟩ := hc
      subst he1
      subst he2
      have h' := Option.some.inj h
      simp only [Prod.mk.injEq] at h'
      obtain ⟨hy, hm, hd⟩ := h'
      exact ⟨a1, a2, a3, a4, b1, b2, c1, c2, heq, hda1, hda2, hda3, hda4, hdb1, hdb2,
        hdc1, hdc2, hy.symm, hm.symm, hd.symm⟩
    · rw [if_neg hc] at h
      exact absurd h (by simp)
  · exact absurd h (by simp)

/-- Two well-formed date strings that parse to the same components are the
same string. -/
theorem parseDate_inj {s1 s2 : String} {v : ℕ × ℕ × ℕ}
    (h1 : parseDate s1 = some v) (h2 : parseDate s2 = some v) : s1 = s2 := by
  obtain ⟨y, m, d⟩ := v
  obtain ⟨a1, a2, a3, a4, b1, b2, c1, c2, heqa, da1, da2, da3, da4, db1, db2, dc1, dc2,
    hy1, hm1, hd1⟩ := parseDate_elim s1 y m d h1
  obtain ⟨p1, p2, p3, p4, q1, q2, r1, r2, heqb, ep1, ep2, ep3, ep4, eq1, eq2, er1, er2,
    hy2, hm2, hd2⟩ := parseDate_elim s2 y m d h2
  obtain ⟨ba1, ba1'⟩ := isDigitChar_bounds da1
  obtain ⟨ba2, ba2'⟩ := isDigitChar_bounds da2
  obtain ⟨ba3, ba3'⟩ := isDigitChar_bounds da3
  obtain ⟨ba4, ba4'⟩ := isDigitChar_bounds da4
  obtain ⟨bb1, bb1'⟩ := isDigitChar_bounds db1
  obtain ⟨bb2, bb2'⟩ := isDigitChar_bounds db2
  obtain ⟨bc1, bc1'⟩ := isDigitChar_bounds dc1
  obtain ⟨bc2, bc2'⟩ := isDigitChar_bounds dc2
  obtain ⟨bp1, bp1'⟩ := isDigitChar_bounds ep1
  obtain ⟨bp2, bp2'⟩ := isDigitChar_bounds ep2
  obtain ⟨bp3, bp3'⟩ := isDigitChar_bounds ep3
  obtain ⟨bp4, bp4'⟩ := isDigitChar_bounds ep4
  obtain ⟨bq1, bq1'⟩ := isDigitChar_bounds eq1
  obtain ⟨bq2, bq2'⟩ := isDigitChar_bounds eq2
  obtain ⟨br1, br1'⟩ := isDigitChar_bounds er1
  obtain ⟨br2, br2'⟩ := isDigitChar_bounds er2
  unfold digitVal at hy1 hm1 hd1 hy2 hm2 hd2
  have ea1 : a1 = p1 := char_eq_of_toNat_eq (by omega)
  have ea2 : a2 = p2 := char_eq_of_toNat_eq (by omega)
  have ea3 : a3 = p3 := char_eq_of_toNat_eq (by omega)
  have ea4 : a4 = p4 := char_eq_of_toNat_eq (by omega)
  have eb1 : b1 = q1 := char_eq_of_toNat_eq (by omega)
  have eb2 : b2 = q2 := char_eq_of_toNat_eq (by omega)
  have ec1 : c1 = r1 := char_eq_of_toNat_eq (by omega)
  have ec2 : c2 = r2 := char_eq_of_toNat_eq (by omega)
  have hdata : s1.data = s2.data := by
    rw [heqa, heqb, ea1, ea2, ea3, ea4, eb1, eb2, ec1, ec2]
  cases s1
  cases s2
  simp_all

/-- Pointwise order transfer: if well-formed `b` does not sort after
well-formed `a` (i.e. `b`'s timestamp is at most `a`'s), then either `a`'s
date is strictly later, or the two date strings are equal and `a`'s time
is at least `b`'s. -/
theorem txSortLe_desc (a b : Transaction) (hwa : wellFormedTx a = true)
    (hwb : wellFormedTx b = true) (hle : txSortLe b a = true) :
    dateVal a.date > dateVal b.date
    ∨ (a.date = b.date ∧ timeVal a.time ≥ timeVal b.time) := by
  obtain ⟨ya, ma, da, ha, mia, hpda, hpta, hva, hmsa⟩ := wellFormedTx_elim a hwa
  obtain ⟨yb, mb, db, hb, mib, hpdb, hptb, hvb, hmsb⟩ := wellFormedTx_elim b hwb
  have hms : txTimeMs b ≤ txTimeMs a := by
    simpa [txSortLe, decide_eq_true_eq] using hle
  rw [hmsa, hmsb] at hms
  have hlex := epochMs_le_lex yb mb db hb mib ya ma da ha mia hvb hva hms
  have hba := daysInMonth_le (isLeapYear ya) ma
  have hbb := daysInMonth_le (isLeapYear yb) mb
  rw [validDateTime_iff] at hva hvb
  obtain ⟨hma1, hma2, hda1, hda2, hha, hmia⟩ := hva
  obtain ⟨hmb1, hmb2, hdb1, hdb2, hhb, hmib⟩ := hvb
  have hdva : dateVal a.date = ya * 10000 + ma * 100 + da := by simp [dateVal, hpda]
  have hdvb : dateVal b.date = yb * 10000 + mb * 100 + db := by simp [dateVal, hpdb]
  have htva : timeVal a.time = ha * 60 + mia := by simp [timeVal, hpta]
  have htvb : timeVal b.time = hb * 60 + mib := by simp [timeVal, hptb]
  rcases hlex with hy | ⟨rfl, hm | ⟨rfl, hd | ⟨rfl, ht⟩⟩⟩
  · left
    rw [hdva, hdvb]
    omega
  · left
    rw [hdva, hdvb]
    omega
  · left
    rw [hdva, hdvb]
    omega
  · right
    refine ⟨parseDate_inj hpda hpdb, ?_⟩
    rw [htva, htvb]
    omega

/-- C2: for every transaction list whose `date` and `time` fields are
well-formed (`YYYY-MM-DD` and `HH:mm` in the ranges JavaScript accepts),
the output of `computeRunningBalances` is sorted descending by
`(date, time)`: for every adjacent pair `(a, b)`, either `a`'s date is
strictly later (`dateVal` compares dates chronologically, which for
well-formed strings coincides with string comparison), or the date
strings are equal and `a`'s time is at least `b`'s. -/
theorem c2_output_sorted_desc (txs : List Transaction)
    (hwf : ∀ t ∈ txs, wellFormedTx t = true) :
    List.Chain'
      (fun a b : TransactionWithBalance =>
        dateVal a.date > dateVal b.date
        ∨ (a.date = b.date ∧ timeVal a.time ≥ timeVal b.time))
      (computeRunningBalances txs) := by
  have htrans : ∀ a b c : Transaction, txSortLe a b = true → txSortLe b c = true →
      txSortLe a c = true := by
    intro a b c hab hbc
    simp only [txSortLe, decide_eq_true_eq] at *
    omega
  have htotal : ∀ a b : Transaction, (txSortLe a b || txSortLe b a) = true := by
    intro a b
    simp only [txSortLe, Bool.or_eq_true, decide_eq_true_eq]
    omega
  have hsorted : List.Pairwise (fun a b => txSortLe a b = true) (txs.mergeSort txSortLe) :=
    List.sorted_mergeSort htrans htotal txs
  have hwf' : ∀ t ∈ txs.mergeSort txSortLe, wellFormedTx t = true := fun t ht =>
    hwf t ((List.mergeSort_perm txs txSortLe).subset ht)
  have hdesc : List.Pairwise
      (fun a b : Transaction =>
        dateVal b.date > dateVal a.date ∨ (b.date = a.date ∧ timeVal b.time ≥ timeVal a.time))
      (txs.mergeSort txSortLe) :=
    hsorted.imp_of_mem (fun ha hb hab => txSortLe_desc _ _ (hwf' _ hb) (hwf' _ ha) hab)
  have hpair : List.Pairwise
      (fun a b : TransactionWithBalance =>
        dateVal b.date > dateVal a.date ∨ (b.date = a.date ∧ timeVal b.time ≥ timeVal a.time))
      (annotateBalances 0 (txs.mergeSort txSortLe)) := by
    have hmap := annotateBalances_map_toTransaction 0 (txs.mergeSort txSortLe)
    rw [← hmap] at hdesc
    exact (List.pairwise_map.mp hdesc)
  have hrev : List.Pairwise
      (fun a b : TransactionWithBalance =>
        dateVal a.date > dateVal b.date ∨ (a.date = b.date ∧ timeVal a.time ≥ timeVal b.time))
      (annotateBalances 0 (txs.mergeSort txSortLe)).reverse := by
    rw [List.pairwise_reverse]
    exact hpair
  exact hrev.chain'

/-- Witness for C2 at the concrete three-transaction book of spec §8
scenario 1 (all dates and times well-formed). -/
theorem c2_witness :
    (∀ t ∈ [sampleTx1, sampleTx2, sampleTx3], wellFormedTx t = true)
    ∧ List.Chain'
        (fun a b : TransactionWithBalance =>
          dateVal a.date > dateVal b.date
          ∨ (a.date = b.date ∧ timeVal a.time ≥ timeVal b.time))
        (computeRunningBalances [sampleTx1, sampleTx2, sampleTx3]) :=
  ⟨by decide, c2_output_sorted_desc [sampleTx1, sampleTx2, sampleTx3] (by decide)⟩
